import Mathlib

set_option maxHeartbeats 1000000

/-!
Verification of `examples/reminder_service.py`: a reminder scheduler with a
Vietnamese command parser, a JSON persistence store and a background firing
loop.  The Python code is shallowly embedded: Python `datetime` values become
the `DateTime` structure (field-wise, with Python's lexicographic comparison),
strings become `List Char` (Python strings are sequences of code points), the
two `re` patterns of `parse_vietnamese_reminder` are embedded as explicit
leftmost-search functions with the same greedy/backtracking behaviour, and the
scheduler's shared state becomes `SchedState` acted on by explicit steps.
`str.lower`/`str.upper` and the `\w`/`\s` character classes are modelled for
the ASCII range plus the Vietnamese letters used by the module.
-/

/-- Python `datetime.datetime` (naive local time), field for field. -/
structure DateTime where
  year : Nat
  month : Nat
  day : Nat
  hour : Nat
  minute : Nat
  second : Nat
  microsecond : Nat
deriving DecidableEq, Repr

/-- Python `datetime` strict comparison `a < b`: lexicographic on the seven
fields. -/
def dtLtB (a b : DateTime) : Bool :=
  if a.year ≠ b.year then decide (a.year < b.year)
  else if a.month ≠ b.month then decide (a.month < b.month)
  else if a.day ≠ b.day then decide (a.day < b.day)
  else if a.hour ≠ b.hour then decide (a.hour < b.hour)
  else if a.minute ≠ b.minute then decide (a.minute < b.minute)
  else if a.second ≠ b.second then decide (a.second < b.second)
  else decide (a.microsecond < b.microsecond)

/-- Python `datetime` comparison `a <= b` (total order, so `a <= b ↔ ¬ b < a`). -/
def dtLeB (a b : DateTime) : Bool := !(dtLtB b a)

/-- Gregorian leap year, as used by Python's `datetime` calendar. -/
def isLeapYear (y : Nat) : Bool := y % 4 == 0 && (y % 100 != 0 || y % 400 == 0)

/-- Number of days of a month in Python's `datetime` calendar. -/
def daysInMonth (y m : Nat) : Nat :=
  if m = 2 then (if isLeapYear y then 29 else 28)
  else if m = 4 ∨ m = 6 ∨ m = 9 ∨ m = 11 then 30
  else 31

/-- `d + datetime.timedelta(days=1)` on a valid datetime. -/
def addOneDay (d : DateTime) : DateTime :=
  if d.day < daysInMonth d.year d.month then { d with day := d.day + 1 }
  else if d.month < 12 then { d with month := d.month + 1, day := 1 }
  else { d with year := d.year + 1, month := 1, day := 1 }

/-- `reference.replace(hour=hour, minute=minute, second=0, microsecond=0)`. -/
def replaceHM (d : DateTime) (hour minute : Nat) : DateTime :=
  { d with hour := hour, minute := minute, second := 0, microsecond := 0 }

/-- Lines 206-208 of the source: replace the clock time on the reference day
and roll forward one calendar day when the result is not strictly in the
future. -/
def computeDue (reference : DateTime) (hour minute : Nat) : DateTime :=
  let due := replaceHM reference hour minute
  if dtLeB due reference then addOneDay due else due

/-- The `\s` class / `str.strip` whitespace (ASCII part). -/
def isSpaceChar (c : Char) : Bool :=
  c == ' ' || c == '\t' || c == '\n' || c == '\r' || c == '\x0b' || c == '\x0c'

/-- Uppercase/lowercase pairs of the Vietnamese letters used by the module. -/
def viPairs : List (Char × Char) :=
  [('Đ', 'đ'), ('Ô', 'ô'), ('Ú', 'ú'), ('Ư', 'ư'), ('Ắ', 'ắ'),
   ('Ở', 'ở'), ('Ố', 'ố'), ('Ủ', 'ủ'), ('Ớ', 'ớ'), ('Ờ', 'ờ'),
   ('Ă', 'ă'), ('Â', 'â'), ('Ê', 'ê'), ('Ơ', 'ơ'), ('Á', 'á'),
   ('À', 'à'), ('Ã', 'ã'), ('Ả', 'ả'), ('Ạ', 'ạ'), ('É', 'é'),
   ('È', 'è'), ('Ế', 'ế'), ('Ề', 'ề'), ('Ể', 'ể'), ('Ệ', 'ệ'),
   ('Í', 'í'), ('Ì', 'ì'), ('Ỉ', 'ỉ'), ('Ị', 'ị'), ('Ó', 'ó'),
   ('Ò', 'ò'), ('Ỏ', 'ỏ'), ('Ọ', 'ọ'), ('Ồ', 'ồ'), ('Ổ', 'ổ'),
   ('Ộ', 'ộ'), ('Ợ', 'ợ'), ('Ù', 'ù'), ('Ụ', 'ụ'), ('Ứ', 'ứ'),
   ('Ừ', 'ừ'), ('Ự', 'ự'), ('Ý', 'ý'), ('Ỳ', 'ỳ'), ('Ỷ', 'ỷ')]

/-- `str.lower` on one code point (ASCII plus the Vietnamese letters above). -/
def lowerChar (c : Char) : Char :=
  if 'A' ≤ c ∧ c ≤ 'Z' then Char.ofNat (c.toNat + 32)
  else
    match viPairs.find? (fun p => p.1 == c) with
    | some p => p.2
    | none => c

/-- `str.upper` on one code point (ASCII plus the Vietnamese letters above). -/
def upperChar (c : Char) : Char :=
  if 'a' ≤ c ∧ c ≤ 'z' then Char.ofNat (c.toNat - 32)
  else
    match viPairs.find? (fun p => p.2 == c) with
    | some p => p.1
    | none => c

/-- A letter of the Vietnamese table (either case). -/
def isViLetter (c : Char) : Bool := viPairs.any (fun p => p.1 == c || p.2 == c)

/-- The `\w` class for the modelled alphabet (letters, digits, underscore). -/
def isWordChar (c : Char) : Bool := c.isAlpha || c.isDigit || c == '_' || isViLetter c

/-- Numeric value of a decimal digit character. -/
def digitVal (c : Char) : Nat := c.toNat - 48

/-- `int()` on a string of decimal digits. -/
def natOfDigits (cs : List Char) : Nat := cs.foldl (fun a c => 10 * a + digitVal c) 0

/-- `str.strip()` (no argument): drop whitespace from both ends. -/
def stripWs (cs : List Char) : List Char :=
  ((cs.dropWhile isSpaceChar).reverse.dropWhile isSpaceChar).reverse

/-- `str.strip(chars)`: drop characters of `set` from both ends. -/
def stripCharsSet (set : List Char) (cs : List Char) : List Char :=
  ((cs.dropWhile (fun c => set.contains c)).reverse.dropWhile
    (fun c => set.contains c)).reverse

/-- `str.find` / `str.index`: index of the leftmost occurrence of `pat`. -/
def findSub (pat : List Char) : List Char → Option Nat
  | [] => if pat.isEmpty then some 0 else none
  | c :: rest =>
    if pat.isPrefixOf (c :: rest) then some 0
    else (findSub pat rest).map (· + 1)

/-- Python's `pat in s` substring test. -/
def containsSub (pat cs : List Char) : Bool := (findSub pat cs).isSome

/-- The literal `"lúc"` of both time patterns. -/
def lucLit : List Char := "lúc".data

/-- The literal `"giờ"` of the loose time pattern. -/
def gioLit : List Char := "giờ".data

/-- Match of `lúc\s*(\d{1,2})\s*[:]\s*(\d{1,2})` anchored at the head of `cs`:
returns `(hour, minute, group(0))`.  A run of three or more digits after
`lúc` can never complete this pattern (backtracking the `\d{1,2}` leaves the
cursor on a digit where `\s*[:]` must match), so it is rejected outright. -/
def tryColonAt (cs : List Char) : Option (Nat × Nat × List Char) :=
  if lucLit.isPrefixOf cs then
    let t1 := cs.drop 3
    let ws1 := t1.takeWhile isSpaceChar
    let t2 := t1.dropWhile isSpaceChar
    let run1 := t2.takeWhile Char.isDigit
    if run1.length = 0 ∨ 3 ≤ run1.length then none
    else
      let t3 := t2.drop run1.length
      let ws2 := t3.takeWhile isSpaceChar
      let t4 := t3.dropWhile isSpaceChar
      match t4 with
      | ':' :: t5 =>
        let ws3 := t5.takeWhile isSpaceChar
        let t6 := t5.dropWhile isSpaceChar
        let run2 := (t6.takeWhile Char.isDigit).take 2
        if run2.length = 0 then none
        else some (natOfDigits run1, natOfDigits run2,
          lucLit ++ ws1 ++ run1 ++ ws2 ++ ':' :: (ws3 ++ run2))
      | _ => none
  else none

/-- `re.search` of the colon pattern: leftmost position whose suffix matches. -/
def colonSearch : List Char → Option (Nat × Nat × List Char)
  | [] => none
  | c :: rest =>
    match tryColonAt (c :: rest) with
    | some r => some r
    | none => colonSearch rest

/-- Match of `lúc\s*(\d{1,2})(?:\s*(?:giờ|h))?(?:\s*(\d{1,2}))?` anchored at
the head of `cs`: returns `(hour, minute-or-0, group(0))`.  Everything after
group 1 is optional, so the greedy two-digit hour always stands; the optional
unit (`giờ` preferred over `h`) and the optional minute group consume their
leading whitespace only when they match. -/
def trySimpleAt (cs : List Char) : Option (Nat × Nat × List Char) :=
  if lucLit.isPrefixOf cs then
    let t1 := cs.drop 3
    let ws1 := t1.takeWhile isSpaceChar
    let t2 := t1.dropWhile isSpaceChar
    let run1 := (t2.takeWhile Char.isDigit).take 2
    if run1.length = 0 then none
    else
      let t3 := t2.drop run1.length
      let ws2 := t3.takeWhile isSpaceChar
      let t4 := t3.dropWhile isSpaceChar
      let unitStep : List Char × List Char :=
        if gioLit.isPrefixOf t4 then (ws2 ++ gioLit, t4.drop 3)
        else
          match t4 with
          | 'h' :: t => (ws2 ++ ['h'], t)
          | _ => ([], t3)
      let t5 := unitStep.2
      let ws3 := t5.takeWhile isSpaceChar
      let t6 := t5.dropWhile isSpaceChar
      let run2 := (t6.takeWhile Char.isDigit).take 2
      let minuteStep : List Char × Nat :=
        if run2.length = 0 then ([], 0) else (ws3 ++ run2, natOfDigits run2)
      some (natOfDigits run1, minuteStep.2,
        lucLit ++ ws1 ++ run1 ++ unitStep.1 ++ minuteStep.1)
  else none

/-- `re.search` of the loose pattern: leftmost position whose suffix matches. -/
def simpleSearch : List Char → Option (Nat × Nat × List Char)
  | [] => none
  | c :: rest =>
    match trySimpleAt (c :: rest) with
    | some r => some r
    | none => simpleSearch rest

/-- Lines 170-184: the colon pattern is tried first, the loose pattern only
when it finds nothing. -/
def extractTime (normalized : List Char) : Option (Nat × Nat × List Char) :=
  match colonSearch normalized with
  | some r => some r
  | none => simpleSearch normalized

/-- `\b` holds before a word character iff the preceding character (if any)
is not a word character. -/
def boundaryBefore : Option Char → Bool
  | none => true
  | some p => !isWordChar p

/-- `\b` holds after a word character iff the following character (if any)
is not a word character. -/
def boundaryAfter : List Char → Bool
  | [] => true
  | c :: _ => !isWordChar c

/-- `re.sub(r"\blúc\b", "", message, flags=re.IGNORECASE)`: left-to-right
non-overlapping removal; `prev` is the original character before the cursor,
used for the left word boundary. -/
def subLuc : Option Char → List Char → List Char
  | _, [] => []
  | _, [c] => [c]
  | _, [c1, c2] => [c1, c2]
  | prev, c1 :: c2 :: c3 :: rest =>
    if boundaryBefore prev && lowerChar c1 == 'l' && lowerChar c2 == 'ú' &&
        lowerChar c3 == 'c' && boundaryAfter rest then
      subLuc (some c3) rest
    else
      c1 :: subLuc (some c1) (c2 :: c3 :: rest)

/-- Worker for `re.sub(r"\s{2,}", " ", message)`: when `inRun` is set the
current whitespace belongs to a run whose single `' '` was already emitted. -/
def collapseWsAux : Bool → List Char → List Char
  | _, [] => []
  | inRun, c :: rest =>
    if isSpaceChar c then
      if inRun then collapseWsAux true rest
      else
        match rest with
        | [] => [c]
        | r :: _ =>
          if isSpaceChar r then ' ' :: collapseWsAux true rest
          else c :: collapseWsAux false rest
    else c :: collapseWsAux false rest

/-- `re.sub(r"\s{2,}", " ", message)`: collapse runs of two or more
whitespace characters to a single space, keep lone whitespace unchanged. -/
def collapseWs (cs : List Char) : List Char := collapseWsAux false cs

/-- `message[0].upper() + message[1:]` (identity on the empty message). -/
def capitalizeMsg : List Char → List Char
  | [] => []
  | c :: rest => upperChar c :: rest

/-- The trigger phrase of line 168. -/
def trigger : List Char := "nhắc nhở tôi".data

/-- Line 166: `command.lower().strip()`. -/
def normalizeCmd (command : List Char) : List Char := stripWs (command.map lowerChar)

/-- The four `ValueError` categories of `parse_vietnamese_reminder`. -/
inductive ParseErr where
  | noTrigger
  | noTime
  | badHour
  | badMinute
deriving DecidableEq, Repr

/-- The character set of `strip(" ,.:-")` on line 201. -/
def stripSet : List Char := [' ', ',', '.', ':', '-']

/-- Lines 191-204: slice the original command after the trigger (at the index
found in the normalized command), excise the first case-insensitive occurrence
of the time fragment, drop word-bounded `lúc`, strip punctuation, collapse
whitespace and capitalize. -/
def buildMessage (command normalized frag : List Char) : List Char :=
  let startIndex := (match findSub trigger normalized with
    | some i => i
    | none => 0) + trigger.length
  let messageOriginal := command.drop startIndex
  let messageLower := messageOriginal.map lowerChar
  let fragLower := frag.map lowerChar
  let messageExcised :=
    match findSub fragLower messageLower with
    | some p => messageOriginal.take p ++ messageOriginal.drop (p + frag.length)
    | none => messageOriginal
  let m1 := stripCharsSet stripSet (subLuc none messageExcised)
  let m2 := stripWs (collapseWs m1)
  capitalizeMsg m2

/-- `parse_vietnamese_reminder` up to the construction of the `Reminder`:
returns the due time and the message, or the `ValueError` category. -/
def parseCore (command : List Char) (reference : DateTime) :
    Except ParseErr (DateTime × List Char) :=
  let normalized := normalizeCmd command
  if containsSub trigger normalized then
    match extractTime normalized with
    | none => .error .noTime
    | some (hour, minute, frag) =>
      if 23 < hour then .error .badHour
      else if 59 < minute then .error .badMinute
      else
        let msg := buildMessage command normalized frag
        let msg := if msg.isEmpty then "Nhắc nhở".data else msg
        .ok (computeDue reference hour minute, msg)
  else .error .noTrigger

/-- The `Reminder` dataclass. -/
structure Reminder where
  due_time : DateTime
  message : String
  identifier : String
  created_at : DateTime
deriving DecidableEq, Repr

/-- `parse_vietnamese_reminder(command, reference)`.  The dataclass generates
`identifier` and `created_at` freshly; that nondeterminism is made explicit by
passing the generated values as arguments. -/
def parse_vietnamese_reminder (command : List Char) (reference : DateTime)
    (freshIdentifier : String) (creationTime : DateTime) : Except ParseErr Reminder :=
  match parseCore command reference with
  | .error e => .error e
  | .ok (due, msg) => .ok ⟨due, ⟨msg⟩, freshIdentifier, creationTime⟩

/-- The dataclass order of `Reminder` (`order=True` with every field except
`due_time` marked `compare=False`): comparison looks at `due_time` only. -/
def ByDue (a b : Reminder) : Prop := dtLeB a.due_time b.due_time = true

instance : DecidableRel ByDue :=
  fun a b => inferInstanceAs (Decidable (dtLeB a.due_time b.due_time = true))

/-- Python's stable `list.sort()` / `sorted` under the dataclass order.  Both
are stable sorts by `due_time`, so they agree with insertion sort. -/
def sortByDue (l : List Reminder) : List Reminder := l.insertionSort ByDue

/-- Shared state of `ReminderScheduler` and its store: the in-memory pending
list, the sequence most recently written to the store (the file's contents, as
records), and the number of `save` calls performed. -/
structure SchedState where
  reminders : List Reminder
  stored : List Reminder
  saveCount : Nat
deriving DecidableEq, Repr

/-- `ReminderScheduler.__init__` (line 89): sort the loaded reminders into
memory; the store is not rewritten. -/
def schedInit (loaded : List Reminder) : SchedState :=
  ⟨sortByDue loaded, loaded, 0⟩

/-- `add_reminder` (lines 99-105): append, sort, save. -/
def addReminder (s : SchedState) (r : Reminder) : SchedState :=
  let rs := sortByDue (s.reminders ++ [r])
  ⟨rs, rs, s.saveCount + 1⟩

/-- `upcoming` (lines 107-109): a snapshot copy of the pending list. -/
def upcoming (s : SchedState) : List Reminder := s.reminders

/-- The scan of `remove_reminder`: pop the first reminder with the given
identifier, returning it and the remaining list. -/
def removeFirst : List Reminder → String → Option (Reminder × List Reminder)
  | [], _ => none
  | r :: rest, ident =>
    if r.identifier = ident then some (r, rest)
    else (removeFirst rest ident).map (fun p => (p.1, r :: p.2))

/-- `remove_reminder` (lines 111-119): on a hit, save the reduced list and
return the removed reminder; otherwise return `None` without touching
anything. -/
def removeReminder (s : SchedState) (ident : String) : Option Reminder × SchedState :=
  match removeFirst s.reminders ident with
  | some (r, rest) => (some r, ⟨rest, rest, s.saveCount + 1⟩)
  | none => (none, s)

/-- The dequeue step of `_run_loop` (lines 126-129): if the earliest reminder
is due, pop it and save the reduced list. -/
def fireStep (s : SchedState) (now : DateTime) : Option Reminder × SchedState :=
  match s.reminders with
  | [] => (none, s)
  | r :: rest =>
    if dtLeB r.due_time now then (some r, ⟨rest, rest, s.saveCount + 1⟩)
    else (none, s)

/-- An invocation of one of the two delivery sinks. -/
inductive SinkEvent where
  | display (r : Reminder)
  | speak (r : Reminder)
deriving DecidableEq, Repr

/-- One interleaving step of the scheduler: a public mutation or one loop
iteration at a given wall-clock instant. -/
inductive SchedCmd where
  | add (r : Reminder)
  | remove (ident : String)
  | tick (now : DateTime)

/-- Effect of one command on the state, together with the sink invocations it
produces.  A firing iteration invokes the display sink and then the speak sink
with the popped reminder (lines 138-140). -/
def schedStep (s : SchedState) : SchedCmd → SchedState × List SinkEvent
  | .add r => (addReminder s r, [])
  | .remove ident => ((removeReminder s ident).2, [])
  | .tick now =>
    match fireStep s now with
    | (some r, s1) => (s1, [.display r, .speak r])
    | (none, s1) => (s1, [])

/-- Run a sequence of commands, collecting every sink invocation in order. -/
def runSched (s : SchedState) : List SchedCmd → SchedState × List SinkEvent
  | [] => (s, [])
  | c :: cs =>
    ((runSched (schedStep s c).1 cs).1,
      (schedStep s c).2 ++ (runSched (schedStep s c).1 cs).2)

/-- Identifier of the reminder an invocation carries. -/
def evIdent : SinkEvent → String
  | .display r => r.identifier
  | .speak r => r.identifier

/-- The sub-trace of sink invocations concerning one reminder identifier. -/
def eventsFor (ident : String) (evs : List SinkEvent) : List SinkEvent :=
  evs.filter (fun e => evIdent e == ident)

/-- Identifiers of the pending reminders. -/
def pendingIds (s : SchedState) : List String := s.reminders.map Reminder.identifier

/-- Identifiers of the reminders added by a command sequence. -/
def addIds : List SchedCmd → List String
  | [] => []
  | .add r :: cs => r.identifier :: addIds cs
  | _ :: cs => addIds cs

/-- Lines 139-140 as written: the two sink calls run back to back with no
exception handling, so a raise from either one propagates out of the loop
body. -/
def deliverSinks (displaySink speakSink : Reminder → Except String Unit)
    (r : Reminder) : Except String Unit := do
  displaySink r
  speakSink r

/-- Fixed-width zero-padded decimal rendering (`"%04d"`, `"%02d"`, `"%06d"`),
most significant digit first. -/
def padChars : Nat → Nat → List Char
  | 0, _ => []
  | w + 1, n => padChars w (n / 10) ++ [Nat.digitChar (n % 10)]

/-- `datetime.isoformat()` for a naive datetime: `YYYY-MM-DDTHH:MM:SS`, with
`.ffffff` appended exactly when the microsecond field is nonzero. -/
def isoChars (d : DateTime) : List Char :=
  padChars 4 d.year ++ ('-' :: (padChars 2 d.month ++ ('-' :: (padChars 2 d.day ++
  ('T' :: (padChars 2 d.hour ++ (':' :: (padChars 2 d.minute ++ (':' :: (padChars 2 d.second ++
  (if d.microsecond = 0 then [] else '.' :: padChars 6 d.microsecond)))))))))))

/-- Read exactly `w` decimal digits. -/
def parseFixed (w : Nat) (cs : List Char) : Option (Nat × List Char) :=
  let pre := cs.take w
  if pre.length = w ∧ pre.all Char.isDigit then some (natOfDigits pre, cs.drop w)
  else none

/-- Require one specific character. -/
def expectChar (c : Char) : List Char → Option (List Char)
  | [] => none
  | x :: rest => if x == c then some rest else none

/-- `fromisoformat` accepts any single character as the date/time separator. -/
def skipSep : List Char → Option (List Char)
  | [] => none
  | _ :: rest => some rest

/-- The range invariants `datetime.datetime` itself enforces on construction. -/
def ValidDT (d : DateTime) : Prop :=
  1 ≤ d.year ∧ d.year ≤ 9999 ∧ 1 ≤ d.month ∧ d.month ≤ 12 ∧
  1 ≤ d.day ∧ d.day ≤ daysInMonth d.year d.month ∧
  d.hour ≤ 23 ∧ d.minute ≤ 59 ∧ d.second ≤ 59 ∧ d.microsecond ≤ 999999

instance (d : DateTime) : Decidable (ValidDT d) := by
  unfold ValidDT
  infer_instance

/-- The optional fractional-seconds part of `fromisoformat`: absent, or a
dot followed by six microsecond digits or three millisecond digits. -/
def parseFraction : List Char → Option (Nat × List Char)
  | [] => some (0, [])
  | '.' :: rest =>
    (match parseFixed 6 rest with
     | some p => some p
     | none => (parseFixed 3 rest).map (fun p => (p.1 * 1000, p.2)))
  | _ => none

/-- `datetime.fromisoformat` on the forms relevant to the store:
`YYYY-MM-DD?HH:MM:SS` with an optional 6- or 3-digit fraction, validated by
the `datetime` constructor. -/
def fromIsoChars (cs : List Char) : Option DateTime :=
  match parseFixed 4 cs with
  | none => none
  | some (y, r1) =>
  match expectChar '-' r1 with
  | none => none
  | some r2 =>
  match parseFixed 2 r2 with
  | none => none
  | some (mo, r3) =>
  match expectChar '-' r3 with
  | none => none
  | some r4 =>
  match parseFixed 2 r4 with
  | none => none
  | some (dd, r5) =>
  match skipSep r5 with
  | none => none
  | some r6 =>
  match parseFixed 2 r6 with
  | none => none
  | some (h, r7) =>
  match expectChar ':' r7 with
  | none => none
  | some r8 =>
  match parseFixed 2 r8 with
  | none => none
  | some (mi, r9) =>
  match expectChar ':' r9 with
  | none => none
  | some r10 =>
  match parseFixed 2 r10 with
  | none => none
  | some (s, r11) =>
  match parseFraction r11 with
  | none => none
  | some (us, r12) =>
  if r12.isEmpty then
    (if ValidDT ⟨y, mo, dd, h, mi, s, us⟩ then some ⟨y, mo, dd, h, mi, s, us⟩
     else none)
  else none

/-- The JSON record written per reminder (`Reminder.to_json`): a dict of four
strings; `json.dumps`/`json.loads` round-trip such dicts exactly, so the
record level is where the real encoding (ISO-8601) lives. -/
structure ReminderJson where
  due_time : String
  message : String
  identifier : String
  created_at : String
deriving DecidableEq, Repr

/-- `Reminder.to_json` (lines 34-40). -/
def Reminder.to_json (r : Reminder) : ReminderJson :=
  ⟨⟨isoChars r.due_time⟩, r.message, r.identifier, ⟨isoChars r.created_at⟩⟩

/-- `Reminder.from_json` (lines 42-49); `fromisoformat` raising on malformed
input becomes `none`. -/
def Reminder.from_json (j : ReminderJson) : Option Reminder := do
  let due ← fromIsoChars j.due_time.data
  let created ← fromIsoChars j.created_at.data
  some ⟨due, j.message, j.identifier, created⟩

/-- `ReminderStore.save` (lines 67-70): serialize every reminder, overwriting
the whole file. -/
def storeSave (reminders : List Reminder) : List ReminderJson :=
  reminders.map Reminder.to_json

/-- `ReminderStore.load` (lines 60-65): decode every record. -/
def storeLoad (data : List ReminderJson) : Option (List Reminder) :=
  data.mapM Reminder.from_json

/-! ### Order lemmas for the embedded `datetime` comparison -/

/-- Arithmetic characterization of the strict lexicographic comparison. -/
theorem dtLtB_iff (a b : DateTime) : dtLtB a b = true ↔
    (a.year < b.year ∨ (a.year = b.year ∧ (a.month < b.month ∨ (a.month = b.month ∧
    (a.day < b.day ∨ (a.day = b.day ∧ (a.hour < b.hour ∨ (a.hour = b.hour ∧
    (a.minute < b.minute ∨ (a.minute = b.minute ∧ (a.second < b.second ∨
    (a.second = b.second ∧ a.microsecond < b.microsecond)))))))))))) := by
  unfold dtLtB
  split_ifs <;> simp only [decide_eq_true_eq] <;> omega

/-- `dtLeB` is the negation of the flipped strict comparison. -/
theorem dtLtB_of_not_dtLeB {a b : DateTime} (h : ¬ dtLeB a b = true) :
    dtLtB b a = true := by
  unfold dtLeB at h
  simpa using h

/-- `addOneDay` only changes the calendar date. -/
theorem addOneDay_time (d : DateTime) :
    (addOneDay d).hour = d.hour ∧ (addOneDay d).minute = d.minute ∧
    (addOneDay d).second = d.second ∧ (addOneDay d).microsecond = d.microsecond := by
  unfold addOneDay
  split_ifs <;> simp

/-- The day after `reference` with the clock replaced is strictly after
`reference`: the calendar date strictly increases and the date fields come
first in the comparison. -/
theorem dtLtB_addOneDay_replace (ref : DateTime) (h m : Nat) :
    dtLtB ref (addOneDay (replaceHM ref h m)) = true := by
  rw [dtLtB_iff]
  unfold addOneDay replaceHM
  split_ifs with h1 h2 <;> simp_all

/-- The due time computed on lines 206-208 keeps the requested clock time. -/
theorem computeDue_fields (ref : DateTime) (h m : Nat) :
    (computeDue ref h m).hour = h ∧ (computeDue ref h m).minute = m := by
  simp only [computeDue, replaceHM, addOneDay]
  split_ifs <;> simp

/-- The computed due time is strictly after the reference. -/
theorem dtLtB_ref_computeDue (ref : DateTime) (h m : Nat) :
    dtLtB ref (computeDue ref h m) = true := by
  simp only [computeDue]
  split_ifs with hle
  · exact dtLtB_addOneDay_replace ref h m
  · exact dtLtB_of_not_dtLeB hle

/-! ### C10: determinism of `parse` in its explicit inputs -/

/-- C10.  `parse` is deterministic in its explicit inputs: two invocations on
the same command text and reference time either fail with the same error
category, or both return reminders agreeing on `due_time` and `message`; only
the freshly generated `identifier`/`created_at` fields can differ. -/
theorem parse_deterministic (command : List Char) (reference : DateTime)
    (i1 i2 : String) (c1 c2 : DateTime) :
    (∃ e, parse_vietnamese_reminder command reference i1 c1 = .error e ∧
          parse_vietnamese_reminder command reference i2 c2 = .error e) ∨
    (∃ r1 r2, parse_vietnamese_reminder command reference i1 c1 = .ok r1 ∧
              parse_vietnamese_reminder command reference i2 c2 = .ok r2 ∧
              r1.due_time = r2.due_time ∧ r1.message = r2.message) := by
  cases hp : parseCore command reference with
  | error e =>
    exact .inl ⟨e, by simp [parse_vietnamese_reminder, hp],
      by simp [parse_vietnamese_reminder, hp]⟩
  | ok p =>
    obtain ⟨d, m⟩ := p
    exact .inr ⟨⟨d, ⟨m⟩, i1, c1⟩, ⟨d, ⟨m⟩, i2, c2⟩,
      by simp [parse_vietnamese_reminder, hp],
      by simp [parse_vietnamese_reminder, hp], rfl, rfl⟩

/-! ### C5: the store mirrors memory after every mutation -/

/-- C5.  After `add_reminder`, after a successful `remove_reminder` and after
the dequeue step of firing, the sequence just saved to the store equals the
in-memory pending list. -/
theorem persisted_matches_memory (s : SchedState) (r : Reminder) (ident : String)
    (now : DateTime) :
    ((addReminder s r).stored = (addReminder s r).reminders) ∧
    (∀ rr s1, removeReminder s ident = (some rr, s1) → s1.stored = s1.reminders) ∧
    (∀ rr s1, fireStep s now = (some rr, s1) → s1.stored = s1.reminders) := by
  refine ⟨rfl, ?_, ?_⟩
  · intro rr s1 h
    unfold removeReminder at h
    split at h
    · injection h with h1 h2
      subst h2
      rfl
    · simp at h
  · intro rr s1 h
    unfold fireStep at h
    split at h
    · simp at h
    · split at h
      · injection h with h1 h2
        subst h2
        rfl
      · simp at h

/-- Witness for C5 at a concrete state: one pending reminder is added, then
the pending one is fired. -/
theorem persisted_matches_memory_witness :
    ((addReminder ⟨[], [], 0⟩ ⟨⟨2024, 1, 2, 1, 0, 0, 0⟩, "Đi ngủ", "id1", ⟨2024, 1, 1, 20, 0, 0, 0⟩⟩).stored
      = (addReminder ⟨[], [], 0⟩ ⟨⟨2024, 1, 2, 1, 0, 0, 0⟩, "Đi ngủ", "id1", ⟨2024, 1, 1, 20, 0, 0, 0⟩⟩).reminders) ∧
    (⟨[], [], 1⟩ : SchedState).stored = (⟨[], [], 1⟩ : SchedState).reminders :=
  ⟨(persisted_matches_memory ⟨[], [], 0⟩ ⟨⟨2024, 1, 2, 1, 0, 0, 0⟩, "Đi ngủ", "id1", ⟨2024, 1, 1, 20, 0, 0, 0⟩⟩ "id1" ⟨2024, 1, 2, 1, 0, 0, 0⟩).1,
   (persisted_matches_memory
      ⟨[⟨⟨2024, 1, 2, 1, 0, 0, 0⟩, "Đi ngủ", "id1", ⟨2024, 1, 1, 20, 0, 0, 0⟩⟩],
       [⟨⟨2024, 1, 2, 1, 0, 0, 0⟩, "Đi ngủ", "id1", ⟨2024, 1, 1, 20, 0, 0, 0⟩⟩], 0⟩
      ⟨⟨2024, 1, 2, 1, 0, 0, 0⟩, "Đi ngủ", "id1", ⟨2024, 1, 1, 20, 0, 0, 0⟩⟩ "id1"
      ⟨2024, 1, 2, 2, 0, 0, 0⟩).2.2
     ⟨⟨2024, 1, 2, 1, 0, 0, 0⟩, "Đi ngủ", "id1", ⟨2024, 1, 1, 20, 0, 0, 0⟩⟩ ⟨[], [], 1⟩ (by decide)⟩

/-! ### C9: removing an absent identifier is a no-op -/

/-- If no pending reminder carries the identifier, the scan finds nothing. -/
theorem removeFirst_eq_none (l : List Reminder) (ident : String)
    (h : ∀ r ∈ l, r.identifier ≠ ident) : removeFirst l ident = none := by
  induction l with
  | nil => rfl
  | cons r rest ih =>
    unfold removeFirst
    rw [if_neg (h r (List.mem_cons_self r rest)),
      ih (fun x hx => h x (List.mem_cons_of_mem r hx))]
    rfl

/-- C9.  `remove_reminder` on an identifier absent from the pending set
returns `None` and leaves the whole state — memory, stored sequence and save
count — unchanged. -/
theorem remove_absent_is_noop (s : SchedState) (ident : String)
    (h : ∀ r ∈ s.reminders, r.identifier ≠ ident) :
    removeReminder s ident = (none, s) := by
  unfold removeReminder
  rw [removeFirst_eq_none s.reminders ident h]

/-- Witness for C9: removing an identifier that was never added. -/
theorem remove_absent_is_noop_witness :
    removeReminder
      ⟨[⟨⟨2024, 1, 2, 1, 0, 0, 0⟩, "Đi ngủ", "id1", ⟨2024, 1, 1, 20, 0, 0, 0⟩⟩],
       [⟨⟨2024, 1, 2, 1, 0, 0, 0⟩, "Đi ngủ", "id1", ⟨2024, 1, 1, 20, 0, 0, 0⟩⟩], 0⟩ "zzz"
    = (none,
      ⟨[⟨⟨2024, 1, 2, 1, 0, 0, 0⟩, "Đi ngủ", "id1", ⟨2024, 1, 1, 20, 0, 0, 0⟩⟩],
       [⟨⟨2024, 1, 2, 1, 0, 0, 0⟩, "Đi ngủ", "id1", ⟨2024, 1, 1, 20, 0, 0, 0⟩⟩], 0⟩) :=
  remove_absent_is_noop _ "zzz" (by decide)

/-! ### C8: what really happens when a sink raises -/

/-- C8 (divergence witness).  With the delivery step exactly as written on
lines 139-140 — two bare calls with no handler — an exception from the display
sink propagates out of the loop body (crashing the scheduler thread), and the
speak sink's result never enters the outcome, i.e. the speak call for that
reminder is lost rather than isolated. -/
theorem sink_exception_escapes_loop :
    (deliverSinks (fun _ => .error "display failed") (fun _ => .ok ())
      ⟨⟨2024, 1, 1, 7, 0, 0, 0⟩, "Uống nước", "id1", ⟨2024, 1, 1, 6, 0, 0, 0⟩⟩
      = .error "display failed") ∧
    (∀ speakSink r, deliverSinks (fun _ => .error "display failed") speakSink r
      = .error "display failed") :=
  ⟨rfl, fun _ _ => rfl⟩

/-! ### Structure of `parseCore` -/

/-- Forward evaluation of `parseCore` on the success path. -/
theorem parseCore_ok_eq (cmd : List Char) (ref : DateTime) (h m : Nat) (f : List Char)
    (ht : containsSub trigger (normalizeCmd cmd) = true)
    (he : extractTime (normalizeCmd cmd) = some (h, m, f))
    (hh : ¬ 23 < h) (hm : ¬ 59 < m) :
    parseCore cmd ref = .ok (computeDue ref h m,
      if (buildMessage cmd (normalizeCmd cmd) f).isEmpty then "Nhắc nhở".data
      else buildMessage cmd (normalizeCmd cmd) f) := by
  simp [parseCore, ht, he, hh, hm]

/-- Inversion of `parseCore` on the success path. -/
theorem parseCore_ok_inv (cmd : List Char) (ref : DateTime) (d : DateTime)
    (msg : List Char) (hp : parseCore cmd ref = .ok (d, msg)) :
    ∃ h m f, containsSub trigger (normalizeCmd cmd) = true ∧
      extractTime (normalizeCmd cmd) = some (h, m, f) ∧ h ≤ 23 ∧ m ≤ 59 ∧
      d = computeDue ref h m ∧
      msg = (if (buildMessage cmd (normalizeCmd cmd) f).isEmpty then "Nhắc nhở".data
        else buildMessage cmd (normalizeCmd cmd) f) := by
  simp only [parseCore] at hp
  split at hp
  case isTrue ht =>
    split at hp
    case h_1 heq => simp at hp
    case h_2 h m f heq =>
      split at hp
      case isTrue hh => simp at hp
      case isFalse hh =>
        split at hp
        case isTrue hm => simp at hp
        case isFalse hm =>
          injection hp with hp1
          injection hp1 with e1 e2
          exact ⟨h, m, f, ht, heq, by omega, by omega, e1.symm, e2.symm⟩
  case isFalse ht => simp at hp

/-! ### C3: the due time is the next occurrence of the parsed clock time -/

/-- C3.  Whenever `parse` accepts a command, the returned due time is the
reference day with the parsed hour/minute substituted and second/microsecond
zeroed, rolled forward by one calendar day when that timestamp is not strictly
after the reference (equality included) — and it is always strictly after the
reference time. -/
theorem due_time_next_occurrence (cmd : List Char) (ref : DateTime) (d : DateTime)
    (msg : List Char) (hp : parseCore cmd ref = .ok (d, msg)) :
    ∃ h m f, extractTime (normalizeCmd cmd) = some (h, m, f) ∧
      d = (if dtLeB (replaceHM ref h m) ref then addOneDay (replaceHM ref h m)
        else replaceHM ref h m) ∧
      dtLtB ref d = true := by
  obtain ⟨h, m, f, ht, he, hh, hm, hd, -⟩ := parseCore_ok_inv cmd ref d msg hp
  exact ⟨h, m, f, he, by rw [hd]; rfl, by rw [hd]; exact dtLtB_ref_computeDue ref h m⟩

/-- Witness for C3: the spec's sleep scenario.  The command asks for 01:00,
the reference is 2024-01-01T20:00:00, so the due time rolls to the next day,
and the message is capitalized. -/
theorem due_time_next_occurrence_witness :
    parseCore "nhắc nhở tôi đi ngủ lúc 1h".data ⟨2024, 1, 1, 20, 0, 0, 0⟩
      = .ok (⟨2024, 1, 2, 1, 0, 0, 0⟩, "Đi ngủ".data) ∧
    dtLtB ⟨2024, 1, 1, 20, 0, 0, 0⟩ ⟨2024, 1, 2, 1, 0, 0, 0⟩ = true := by
  have hp : parseCore "nhắc nhở tôi đi ngủ lúc 1h".data ⟨2024, 1, 1, 20, 0, 0, 0⟩
      = .ok (⟨2024, 1, 2, 1, 0, 0, 0⟩, "Đi ngủ".data) := by rfl
  obtain ⟨h, m, f, -, -, hlt⟩ :=
    due_time_next_occurrence "nhắc nhở tôi đi ngủ lúc 1h".data
      ⟨2024, 1, 1, 20, 0, 0, 0⟩ ⟨2024, 1, 2, 1, 0, 0, 0⟩ "Đi ngủ".data hp
  exact ⟨hp, hlt⟩

/-! ### C4: the colon pattern takes priority -/

/-- C4.  When the colon pattern (`HH:MM`) matches the normalized command and
its values are in range, `parse` succeeds with exactly that hour and minute
(the loose pattern is never consulted), and the due time carries them. -/
theorem colon_pattern_priority (cmd : List Char) (ref : DateTime) (h m : Nat)
    (f : List Char)
    (ht : containsSub trigger (normalizeCmd cmd) = true)
    (hc : colonSearch (normalizeCmd cmd) = some (h, m, f))
    (hh : h ≤ 23) (hm : m ≤ 59) :
    ∃ d msg, parseCore cmd ref = .ok (d, msg) ∧ d.hour = h ∧ d.minute = m := by
  have he : extractTime (normalizeCmd cmd) = some (h, m, f) := by
    unfold extractTime
    rw [hc]
  exact ⟨computeDue ref h m, _,
    parseCore_ok_eq cmd ref h m f ht he (by omega) (by omega),
    (computeDue_fields ref h m).1, (computeDue_fields ref h m).2⟩

/-- Witness for C4: the spec's drink-water scenario.  `"13:30"` is read by the
colon pattern as 13:30 (not as hour 13 with noise), the fragment is excised
from the message, and 13:30 is later than the 08:00 reference, so the date is
unchanged. -/
theorem colon_pattern_priority_witness :
    colonSearch (normalizeCmd "nhắc nhở tôi uống nước lúc 13:30".data)
      = some (13, 30, "lúc 13:30".data) ∧
    parseCore "nhắc nhở tôi uống nước lúc 13:30".data ⟨2024, 1, 1, 8, 0, 0, 0⟩
      = .ok (⟨2024, 1, 1, 13, 30, 0, 0⟩, "Uống nước".data) ∧
    (∃ d msg, parseCore "nhắc nhở tôi uống nước lúc 13:30".data ⟨2024, 1, 1, 8, 0, 0, 0⟩
      = .ok (d, msg) ∧ d.hour = 13 ∧ d.minute = 30) :=
  ⟨by rfl, by rfl,
    colon_pattern_priority "nhắc nhở tôi uống nước lúc 13:30".data
      ⟨2024, 1, 1, 8, 0, 0, 0⟩ 13 30 "lúc 13:30".data (by rfl) (by rfl)
      (by omega) (by omega)⟩

/-! ### C2: when exactly does `parse` fail -/

/-- C2 (counterexample to the claim as stated).  In
`"lúc 5 nhắc nhở tôi ngủ"` — trigger present, the only time expression
*before* the trigger — no time expression follows the trigger (both patterns
fail on the part of the normalized command after it, which starts at index
6 + 12), yet `parse` succeeds: the search is applied to the whole normalized
command, not to the span after the trigger. -/
theorem parse_error_conditions_counterexample :
    containsSub trigger (normalizeCmd "lúc 5 nhắc nhở tôi ngủ".data) = true ∧
    findSub trigger (normalizeCmd "lúc 5 nhắc nhở tôi ngủ".data) = some 6 ∧
    colonSearch ((normalizeCmd "lúc 5 nhắc nhở tôi ngủ".data).drop (6 + 12)) = none ∧
    simpleSearch ((normalizeCmd "lúc 5 nhắc nhở tôi ngủ".data).drop (6 + 12)) = none ∧
    parseCore "lúc 5 nhắc nhở tôi ngủ".data ⟨2024, 1, 1, 8, 0, 0, 0⟩
      = .ok (⟨2024, 1, 2, 5, 0, 0, 0⟩, "Ngủ".data) :=
  ⟨rfl, rfl, rfl, rfl, rfl⟩

/-- C2 (amended).  `parse` fails exactly when the trigger phrase is absent,
when no time expression occurs anywhere in the normalized command (the search
is not restricted to the span after the trigger), or when the syntactically
extracted hour exceeds 23 or minute exceeds 59; and an accepted command never
yields a due time with an out-of-range hour or minute. -/
theorem parse_error_conditions (cmd : List Char) (ref : DateTime) :
    ((∃ e, parseCore cmd ref = .error e) ↔
      (containsSub trigger (normalizeCmd cmd) = false ∨
       extractTime (normalizeCmd cmd) = none ∨
       (∃ h m f, extractTime (normalizeCmd cmd) = some (h, m, f) ∧
         (23 < h ∨ 59 < m)))) ∧
    (∀ d msg, parseCore cmd ref = .ok (d, msg) → d.hour ≤ 23 ∧ d.minute ≤ 59) := by
  constructor
  · by_cases ht : containsSub trigger (normalizeCmd cmd) = true
    · cases he : extractTime (normalizeCmd cmd) with
      | none =>
        have hp : parseCore cmd ref = .error .noTime := by simp [parseCore, ht, he]
        simp [hp, ht, he]
      | some tpl =>
        obtain ⟨h, m, f⟩ := tpl
        by_cases hh : 23 < h
        · have hp : parseCore cmd ref = .error .badHour := by simp [parseCore, ht, he, hh]
          simp only [hp, ht, he]
          constructor
          · intro
            exact .inr (.inr ⟨h, m, f, rfl, .inl hh⟩)
          · intro
            exact ⟨.badHour, rfl⟩
        · by_cases hm : 59 < m
          · have hp : parseCore cmd ref = .error .badMinute := by
              simp [parseCore, ht, he, hh, hm]
            simp only [hp, ht, he]
            constructor
            · intro
              exact .inr (.inr ⟨h, m, f, rfl, .inr hm⟩)
            · intro
              exact ⟨.badMinute, rfl⟩
          · have hp := parseCore_ok_eq cmd ref h m f ht he hh hm
            simp only [hp, ht, he]
            constructor
            · rintro ⟨e, he'⟩
              cases he'
            · rintro (hc | hc | ⟨h', m', f', hc, hr⟩)
              · simp [ht] at hc
              · cases hc
              · injection hc with hc1
                injection hc1 with e1 hc2
                injection hc2 with e2 e3
                omega
    · have hp : parseCore cmd ref = .error .noTrigger := by
        simp only [parseCore]
        rw [if_neg ht]
      have ht' : containsSub trigger (normalizeCmd cmd) = false :=
        Bool.not_eq_true _ ▸ ht
      simp [hp, ht']
  · intro d msg hp
    obtain ⟨h, m, f, -, -, hh, hm, hd, -⟩ := parseCore_ok_inv cmd ref d msg hp
    have hf := computeDue_fields ref h m
    rw [hd, hf.1, hf.2]
    exact ⟨hh, hm⟩

/-! ### C6: the pending set is always sorted by due time -/

/-- `dtLeB` is the complement of the flipped strict comparison. -/
theorem dtLeB_iff_not_dtLtB (a b : DateTime) :
    dtLeB a b = true ↔ ¬ dtLtB b a = true := by
  unfold dtLeB
  simp

/-- The dataclass order is total. -/
theorem byDue_total (a b : Reminder) : ByDue a b ∨ ByDue b a := by
  unfold ByDue
  rw [dtLeB_iff_not_dtLtB, dtLeB_iff_not_dtLtB, dtLtB_iff, dtLtB_iff]
  omega

/-- The dataclass order is transitive. -/
theorem byDue_trans (a b c : Reminder) : ByDue a b → ByDue b c → ByDue a c := by
  unfold ByDue
  rw [dtLeB_iff_not_dtLtB, dtLeB_iff_not_dtLtB, dtLeB_iff_not_dtLtB,
    dtLtB_iff, dtLtB_iff, dtLtB_iff]
  omega

/-- Popping the first reminder with a given identifier leaves a sublist. -/
theorem removeFirst_sublist (l : List Reminder) (ident : String) (r : Reminder)
    (rest : List Reminder) (h : removeFirst l ident = some (r, rest)) :
    rest.Sublist l := by
  induction l generalizing rest with
  | nil => simp [removeFirst] at h
  | cons x xs ih =>
    unfold removeFirst at h
    split at h
    · injection h with h1
      injection h1 with e1 e2
      subst e2
      exact List.sublist_cons_self x xs
    · cases hr : removeFirst xs ident with
      | none => rw [hr] at h; simp at h
      | some p =>
        obtain ⟨pr, prest⟩ := p
        rw [hr] at h
        simp only [Option.map_some', Option.some.injEq, Prod.mk.injEq] at h
        obtain ⟨e1, e2⟩ := h
        subst e1
        subst e2
        exact (ih prest hr).cons₂ x

/-- C6.  The pending list is sorted ascending by `due_time` after
construction, `add_reminder`, `remove_reminder` and the dequeue step of
firing; `upcoming` returns exactly that list; and the order used everywhere
compares `due_time` only — the other fields are irrelevant to it. -/
theorem pending_sorted_by_due :
    (∀ l, List.Sorted ByDue (schedInit l).reminders) ∧
    (∀ s r, List.Sorted ByDue (addReminder s r).reminders) ∧
    (∀ s ident, List.Sorted ByDue s.reminders →
      List.Sorted ByDue (removeReminder s ident).2.reminders) ∧
    (∀ s now, List.Sorted ByDue s.reminders →
      List.Sorted ByDue (fireStep s now).2.reminders) ∧
    (∀ s, upcoming s = s.reminders) ∧
    (∀ a b a2 b2 : Reminder, a.due_time = a2.due_time → b.due_time = b2.due_time →
      (ByDue a b ↔ ByDue a2 b2)) := by
  haveI : IsTotal Reminder ByDue := ⟨byDue_total⟩
  haveI : IsTrans Reminder ByDue := ⟨byDue_trans⟩
  refine ⟨?_, ?_, ?_, ?_, fun _ => rfl, ?_⟩
  · intro l
    exact List.sorted_insertionSort ByDue l
  · intro s r
    exact List.sorted_insertionSort ByDue (s.reminders ++ [r])
  · intro s ident hs
    unfold removeReminder
    cases hr : removeFirst s.reminders ident with
    | none => exact hs
    | some p =>
      obtain ⟨pr, rest⟩ := p
      exact hs.sublist (removeFirst_sublist s.reminders ident pr rest hr)
  · intro s now hs
    unfold fireStep
    split
    · exact hs
    · rename_i x rest hl
      split
      · rw [hl] at hs
        exact (List.pairwise_cons.mp hs).2
      · exact hs
  · intro a b a2 b2 h1 h2
    unfold ByDue
    rw [h1, h2]

/-- Witness for C6: construction sorts an out-of-order store, and removal
from a sorted two-element state stays sorted. -/
theorem pending_sorted_by_due_witness :
    List.Sorted ByDue (schedInit
      [⟨⟨2024, 1, 2, 1, 0, 0, 0⟩, "Đi ngủ", "id1", ⟨2024, 1, 1, 20, 0, 0, 0⟩⟩,
       ⟨⟨2024, 1, 1, 13, 30, 0, 0⟩, "Uống nước", "id2", ⟨2024, 1, 1, 8, 0, 0, 0⟩⟩]).reminders ∧
    List.Sorted ByDue (removeReminder
      ⟨[⟨⟨2024, 1, 1, 13, 30, 0, 0⟩, "Uống nước", "id2", ⟨2024, 1, 1, 8, 0, 0, 0⟩⟩,
        ⟨⟨2024, 1, 2, 1, 0, 0, 0⟩, "Đi ngủ", "id1", ⟨2024, 1, 1, 20, 0, 0, 0⟩⟩],
       [], 0⟩ "id2").2.reminders :=
  ⟨pending_sorted_by_due.1 _, pending_sorted_by_due.2.2.1 _ "id2" (by decide)⟩

/-! ### C1: at-most-once delivery, display before speak -/

/-- Filtering a trace for one identifier distributes over concatenation. -/
theorem eventsFor_append (ident : String) (a b : List SinkEvent) :
    eventsFor ident (a ++ b) = eventsFor ident a ++ eventsFor ident b :=
  List.filter_append a b

/-- One step of `runSched`, spelled out. -/
theorem runSched_cons (s : SchedState) (c : SchedCmd) (cs : List SchedCmd) :
    (runSched s (c :: cs)).2 =
      (schedStep s c).2 ++ (runSched (schedStep s c).1 cs).2 := rfl

/-- Adding a reminder permutes the pending identifiers: the new identifier
joins, nothing else changes (sorting is a permutation). -/
theorem pendingIds_addReminder (s : SchedState) (r : Reminder) :
    List.Perm (pendingIds (addReminder s r)) (pendingIds s ++ [r.identifier]) := by
  unfold pendingIds addReminder sortByDue
  have h := (List.perm_insertionSort ByDue (s.reminders ++ [r])).map Reminder.identifier
  simpa using h

/-- Removal never grows the pending list. -/
theorem removeReminder_reminders_sublist (s : SchedState) (ident : String) :
    (removeReminder s ident).2.reminders.Sublist s.reminders := by
  unfold removeReminder
  cases hr : removeFirst s.reminders ident with
  | none => exact List.Sublist.refl _
  | some p =>
    obtain ⟨pr, rest⟩ := p
    exact removeFirst_sublist s.reminders ident pr rest hr

/-- Inversion of a firing step: the fired reminder was the head of the
pending list and is popped before delivery. -/
theorem fireStep_some_inv (s : SchedState) (now : DateTime) (r : Reminder)
    (s1 : SchedState) (h : fireStep s now = (some r, s1)) :
    s.reminders = r :: s1.reminders := by
  unfold fireStep at h
  split at h
  · simp at h
  · rename_i x rest hl
    split at h
    · injection h with h1 h2
      injection h1 with e1
      subst e1
      subst h2
      exact hl
    · simp at h

/-- Inversion of an idle step. -/
theorem fireStep_none_inv (s : SchedState) (now : DateTime) (s1 : SchedState)
    (h : fireStep s now = (none, s1)) : s1 = s := by
  unfold fireStep at h
  split at h
  · injection h with h1 h2
    exact h2.symm
  · split at h
    · simp at h
    · injection h with h1 h2
      exact h2.symm

/-- A reminder whose identifier is neither pending nor among the identifiers
added later never reaches a sink. -/
theorem eventsFor_runSched_eq_nil (ident : String) : ∀ (cs : List SchedCmd)
    (s : SchedState), ident ∉ pendingIds s ++ addIds cs →
    eventsFor ident (runSched s cs).2 = [] := by
  intro cs
  induction cs with
  | nil => intro s _; rfl
  | cons c cs ih =>
    intro s h
    have hpend : ident ∉ pendingIds s := fun hm => h (List.mem_append_left _ hm)
    have hadds : ident ∉ addIds (c :: cs) := fun hm => h (List.mem_append_right _ hm)
    rw [runSched_cons, eventsFor_append]
    cases c with
    | add r =>
      have hev : eventsFor ident (schedStep s (.add r)).2 = [] := rfl
      rw [hev, List.nil_append]
      apply ih
      intro hm
      rcases List.mem_append.mp hm with hm1 | hm2
      · rcases List.mem_append.mp ((pendingIds_addReminder s r).mem_iff.mp hm1) with h3 | h4
        · exact hpend h3
        · exact hadds (by
            simp only [addIds]
            exact List.mem_cons.mpr (.inl (List.mem_singleton.mp h4)))
      · exact hadds (by
          simp only [addIds]
          exact List.mem_cons.mpr (.inr hm2))
    | remove i2 =>
      have hev : eventsFor ident (schedStep s (.remove i2)).2 = [] := rfl
      rw [hev, List.nil_append]
      apply ih
      intro hm
      rcases List.mem_append.mp hm with hm1 | hm2
      · exact hpend (((removeReminder_reminders_sublist s i2).map Reminder.identifier).mem hm1)
      · exact hadds hm2
    | tick now =>
      cases hfs : fireStep s now with
      | mk rr s1 =>
        cases rr with
        | none =>
          have hs1 : s1 = s := fireStep_none_inv s now s1 hfs
          have hev : (schedStep s (.tick now)).2 = [] := by
            simp [schedStep, hfs]
          have hst : (schedStep s (.tick now)).1 = s := by
            simp [schedStep, hfs, hs1]
          rw [hev, hst]
          have hnil : eventsFor ident ([] : List SinkEvent) = [] := rfl
          rw [hnil, List.nil_append]
          exact ih s h
        | some r =>
          have hcons := fireStep_some_inv s now r s1 hfs
          have hne : ¬ r.identifier = ident := by
            intro he
            exact hpend (by rw [pendingIds, hcons, ← he]; exact List.mem_map_of_mem _ (List.mem_cons_self r _))
          have hev : (schedStep s (.tick now)).2 = [.display r, .speak r] := by
            simp [schedStep, hfs]
          have hst : (schedStep s (.tick now)).1 = s1 := by
            simp [schedStep, hfs]
          rw [hev, hst]
          have hflt : eventsFor ident [SinkEvent.display r, SinkEvent.speak r] = [] := by
            simp [eventsFor, evIdent, hne]
          rw [hflt, List.nil_append]
          apply ih
          intro hm
          rcases List.mem_append.mp hm with hm1 | hm2
          · apply hpend
            rw [pendingIds, hcons, List.map_cons]
            exact List.mem_cons_of_mem _ (by simpa [pendingIds] using hm1)
          · exact hadds hm2

/-- C1.  Assume identifier uniqueness (the dataclass generates a fresh random
128-bit identifier per reminder): initially pending identifiers and the
identifiers of all reminders ever added are pairwise distinct.  Then over any
interleaving of `add`, `remove` and loop iterations, the sink trace of any
single identifier is either empty or exactly `[display r, speak r]` for the
fired reminder `r`: each sink fires at most once per reminder, and display
precedes speak.  (The reminder is popped before delivery — `fireStep_some_inv`
— and, its identifier being unique, is never re-enqueued.) -/
theorem at_most_once_delivery (s : SchedState) (cs : List SchedCmd)
    (hnd : (pendingIds s ++ addIds cs).Nodup) (ident : String) :
    eventsFor ident (runSched s cs).2 = [] ∨
    ∃ r, r.identifier = ident ∧
      eventsFor ident (runSched s cs).2 = [.display r, .speak r] := by
  induction cs generalizing s with
  | nil => exact .inl rfl
  | cons c cs ih =>
    rw [runSched_cons, eventsFor_append]
    cases c with
    | add r =>
      have hev : eventsFor ident (schedStep s (.add r)).2 = [] := rfl
      rw [hev, List.nil_append]
      apply ih
      have hnd1 : (pendingIds s ++ (r.identifier :: addIds cs)).Nodup := hnd
      have heq : (pendingIds s ++ [r.identifier]) ++ addIds cs
          = pendingIds s ++ (r.identifier :: addIds cs) := by
        rw [List.append_assoc]
        rfl
      have hperm : List.Perm (pendingIds (addReminder s r) ++ addIds cs)
          ((pendingIds s ++ [r.identifier]) ++ addIds cs) :=
        (pendingIds_addReminder s r).append_right (addIds cs)
      exact hperm.nodup_iff.mpr (heq.symm ▸ hnd1)
    | remove i2 =>
      have hev : eventsFor ident (schedStep s (.remove i2)).2 = [] := rfl
      rw [hev, List.nil_append]
      apply ih
      have hnd1 : (pendingIds s ++ addIds cs).Nodup := hnd
      have hsub : (pendingIds (removeReminder s i2).2 ++ addIds cs).Sublist
          (pendingIds s ++ addIds cs) :=
        ((removeReminder_reminders_sublist s i2).map Reminder.identifier).append
          (List.Sublist.refl _)
      exact hnd1.sublist hsub
    | tick now =>
      cases hfs : fireStep s now with
      | mk rr s1 =>
        cases rr with
        | none =>
          have hs1 : s1 = s := fireStep_none_inv s now s1 hfs
          have hev2 : (schedStep s (.tick now)).2 = [] := by simp [schedStep, hfs]
          have hst : (schedStep s (.tick now)).1 = s := by simp [schedStep, hfs, hs1]
          rw [hev2, hst]
          have hnil : eventsFor ident ([] : List SinkEvent) = [] := rfl
          rw [hnil, List.nil_append]
          exact ih s hnd
        | some r =>
          have hcons := fireStep_some_inv s now r s1 hfs
          have hev2 : (schedStep s (.tick now)).2 = [.display r, .speak r] := by
            simp [schedStep, hfs]
          have hst : (schedStep s (.tick now)).1 = s1 := by simp [schedStep, hfs]
          rw [hev2, hst]
          have hnd0 : (pendingIds s ++ addIds cs).Nodup := hnd
          have hps : pendingIds s = r.identifier :: pendingIds s1 := by
            simp [pendingIds, hcons]
          rw [hps, List.cons_append] at hnd0
          have hhead := (List.nodup_cons.mp hnd0).1
          have htail := (List.nodup_cons.mp hnd0).2
          by_cases hid : r.identifier = ident
          · right
            refine ⟨r, hid, ?_⟩
            have h1 : eventsFor ident [SinkEvent.display r, SinkEvent.speak r]
                = [SinkEvent.display r, SinkEvent.speak r] := by
              simp [eventsFor, evIdent, hid]
            have h2 : eventsFor ident (runSched s1 cs).2 = [] := by
              apply eventsFor_runSched_eq_nil
              rw [← hid]
              exact hhead
            rw [h1, h2, List.append_nil]
          · have h1 : eventsFor ident [SinkEvent.display r, SinkEvent.speak r] = [] := by
              simp [eventsFor, evIdent, hid]
            rw [h1, List.nil_append]
            exact ih s1 htail

/-- Witness for C1: one reminder pending, one added, two loop ticks; the
trace for identifier `"id1"` is empty or exactly display-then-speak. -/
theorem at_most_once_delivery_witness :
    (pendingIds ⟨[⟨⟨2024, 1, 1, 7, 0, 0, 0⟩, "a", "id1", ⟨2024, 1, 1, 6, 0, 0, 0⟩⟩],
        [⟨⟨2024, 1, 1, 7, 0, 0, 0⟩, "a", "id1", ⟨2024, 1, 1, 6, 0, 0, 0⟩⟩], 0⟩ ++
      addIds [.add ⟨⟨2024, 1, 1, 8, 0, 0, 0⟩, "b", "id2", ⟨2024, 1, 1, 6, 0, 0, 0⟩⟩,
        .tick ⟨2024, 1, 1, 7, 30, 0, 0⟩, .tick ⟨2024, 1, 1, 9, 0, 0, 0⟩]).Nodup ∧
    (eventsFor "id1" (runSched
        ⟨[⟨⟨2024, 1, 1, 7, 0, 0, 0⟩, "a", "id1", ⟨2024, 1, 1, 6, 0, 0, 0⟩⟩],
         [⟨⟨2024, 1, 1, 7, 0, 0, 0⟩, "a", "id1", ⟨2024, 1, 1, 6, 0, 0, 0⟩⟩], 0⟩
        [.add ⟨⟨2024, 1, 1, 8, 0, 0, 0⟩, "b", "id2", ⟨2024, 1, 1, 6, 0, 0, 0⟩⟩,
         .tick ⟨2024, 1, 1, 7, 30, 0, 0⟩, .tick ⟨2024, 1, 1, 9, 0, 0, 0⟩]).2 = [] ∨
     ∃ r, r.identifier = "id1" ∧
       eventsFor "id1" (runSched
        ⟨[⟨⟨2024, 1, 1, 7, 0, 0, 0⟩, "a", "id1", ⟨2024, 1, 1, 6, 0, 0, 0⟩⟩],
         [⟨⟨2024, 1, 1, 7, 0, 0, 0⟩, "a", "id1", ⟨2024, 1, 1, 6, 0, 0, 0⟩⟩], 0⟩
        [.add ⟨⟨2024, 1, 1, 8, 0, 0, 0⟩, "b", "id2", ⟨2024, 1, 1, 6, 0, 0, 0⟩⟩,
         .tick ⟨2024, 1, 1, 7, 30, 0, 0⟩, .tick ⟨2024, 1, 1, 9, 0, 0, 0⟩]).2
        = [.display r, .speak r]) :=
  ⟨by decide, at_most_once_delivery _ _ (by decide) "id1"⟩

/-! ### C7: the store round-trips every reminder exactly -/

/-- Zero-padded rendering has exactly the requested width. -/
theorem padChars_length (w n : Nat) : (padChars w n).length = w := by
  induction w generalizing n with
  | zero => rfl
  | succ w ih => simp [padChars, ih]

/-- The digit characters of `0`-`9` satisfy `Char.isDigit`. -/
theorem digitChar_isDigit : ∀ d, d < 10 → (Nat.digitChar d).isDigit = true := by
  decide

/-- Value of a digit character of `0`-`9`. -/
theorem digitChar_val : ∀ d, d < 10 → (Nat.digitChar d).toNat - 48 = d := by
  decide

/-- Zero-padded rendering emits only digits. -/
theorem padChars_all_digits (w n : Nat) : (padChars w n).all Char.isDigit = true := by
  induction w generalizing n with
  | zero => rfl
  | succ w ih =>
    simp only [padChars, List.all_append, ih, Bool.true_and, List.all_cons,
      List.all_nil, Bool.and_true]
    exact digitChar_isDigit _ (Nat.mod_lt _ (by norm_num))

/-- Folding the digit accumulator over a `w`-wide rendering of `n < 10^w`. -/
theorem foldl_padChars (w : Nat) : ∀ n a, n < 10 ^ w →
    (padChars w n).foldl (fun acc c => 10 * acc + digitVal c) a = a * 10 ^ w + n := by
  induction w with
  | zero =>
    intro n a h
    simp only [padChars, List.foldl_nil, pow_zero]
    omega
  | succ w ih =>
    intro n a h
    have hdiv : n / 10 < 10 ^ w := by
      rw [Nat.div_lt_iff_lt_mul (by norm_num : 0 < 10)]
      calc n < 10 ^ (w + 1) := h
        _ = 10 ^ w * 10 := by rw [pow_succ]
    rw [padChars, List.foldl_append, ih (n / 10) a hdiv]
    simp only [List.foldl_cons, List.foldl_nil]
    have hval : digitVal (Nat.digitChar (n % 10)) = n % 10 := by
      have := digitChar_val (n % 10) (Nat.mod_lt _ (by norm_num))
      simpa [digitVal] using this
    rw [hval, pow_succ, ← Nat.mul_assoc]
    generalize a * 10 ^ w = b
    omega

/-- Parsing `w` digits off a `w`-wide rendering recovers the number. -/
theorem parseFixed_padChars (w n : Nat) (rest : List Char) (h : n < 10 ^ w) :
    parseFixed w (padChars w n ++ rest) = some (n, rest) := by
  have hlen := padChars_length w n
  have htake : (padChars w n ++ rest).take w = padChars w n := by
    have hx := List.take_left (padChars w n) rest
    rwa [hlen] at hx
  have hdrop : (padChars w n ++ rest).drop w = rest := by
    have hx := List.drop_left (padChars w n) rest
    rwa [hlen] at hx
  simp only [parseFixed, htake, hdrop]
  rw [if_pos ⟨hlen, padChars_all_digits w n⟩]
  have hv : natOfDigits (padChars w n) = n := by
    have := foldl_padChars w n 0 h
    simpa [natOfDigits] using this
  rw [hv]

/-- Parsing `w` digits off a `w`-wide rendering at the end of the input. -/
theorem parseFixed_padChars_nil (w n : Nat) (h : n < 10 ^ w) :
    parseFixed w (padChars w n) = some (n, []) := by
  have := parseFixed_padChars w n [] h
  simpa using this

/-- The required character is consumed. -/
theorem expectChar_cons_self (c : Char) (rest : List Char) :
    expectChar c (c :: rest) = some rest := by
  simp [expectChar]

/-- Every month of the embedded calendar has at most 31 days. -/
theorem daysInMonth_le_31 (y m : Nat) : daysInMonth y m ≤ 31 := by
  unfold daysInMonth
  split_ifs <;> omega

/-- `fromisoformat` inverts `isoformat` on every constructible datetime. -/
theorem fromIsoChars_isoChars (d : DateTime) (hv : ValidDT d) :
    fromIsoChars (isoChars d) = some d := by
  obtain ⟨h1, h2, h3, h4, h5, h6, h7, h8, h9, h10⟩ := hv
  have e4 : (10 : Nat) ^ 4 = 10000 := by norm_num
  have e2 : (10 : Nat) ^ 2 = 100 := by norm_num
  have e6 : (10 : Nat) ^ 6 = 1000000 := by norm_num
  have hdm := daysInMonth_le_31 d.year d.month
  have hy : d.year < 10 ^ 4 := by omega
  have hmo : d.month < 10 ^ 2 := by omega
  have hd : d.day < 10 ^ 2 := by omega
  have hh : d.hour < 10 ^ 2 := by omega
  have hmi : d.minute < 10 ^ 2 := by omega
  have hs : d.second < 10 ^ 2 := by omega
  have hus : d.microsecond < 10 ^ 6 := by omega
  have hvd : ValidDT d := ⟨h1, h2, h3, h4, h5, h6, h7, h8, h9, h10⟩
  by_cases hz : d.microsecond = 0
  · simp only [isoChars, hz, if_pos]
    simp only [fromIsoChars, parseFixed_padChars, parseFixed_padChars_nil,
      expectChar_cons_self, skipSep, parseFraction, hy, hmo, hd, hh, hmi, hs, hus,
      List.append_nil]
    rw [← hz]
    simp [hvd]
  · simp only [isoChars, hz, if_neg, not_false_iff]
    simp only [fromIsoChars, parseFixed_padChars, parseFixed_padChars_nil,
      expectChar_cons_self, skipSep, parseFraction, hy, hmo, hd, hh, hmi, hs, hus,
      List.append_nil]
    simp [hvd]

/-- C7.  `save` followed by `load` returns the reminders unchanged: the
identifier, message, due time and creation time of every reminder survive the
record encoding (ISO-8601 timestamps, strings copied verbatim) exactly. -/
theorem save_load_round_trip (l : List Reminder)
    (hv : ∀ r ∈ l, ValidDT r.due_time ∧ ValidDT r.created_at) :
    storeLoad (storeSave l) = some l := by
  induction l with
  | nil => rfl
  | cons r rest ih =>
    have hr := hv r (List.mem_cons_self r rest)
    have hrest := ih (fun x hx => hv x (List.mem_cons_of_mem r hx))
    have h1 : Reminder.from_json (Reminder.to_json r) = some r := by
      simp only [Reminder.from_json, Reminder.to_json,
        fromIsoChars_isoChars r.due_time hr.1, fromIsoChars_isoChars r.created_at hr.2,
        Option.bind_eq_bind, Option.some_bind]
    simp only [storeLoad, storeSave, List.map_cons] at hrest ⊢
    rw [List.mapM_cons, h1]
    simp only [Option.bind_eq_bind, Option.some_bind]
    rw [hrest]
    simp only [Option.some_bind]
    rfl

/-- Witness for C7: a two-element store, one timestamp with a nonzero
microsecond field (exercising the fractional-seconds branch). -/
theorem save_load_round_trip_witness :
    (∀ r ∈ [(⟨⟨2024, 1, 2, 1, 0, 0, 0⟩, "Đi ngủ", "id1", ⟨2024, 1, 1, 20, 0, 5, 123456⟩⟩ : Reminder),
       ⟨⟨2024, 1, 1, 13, 30, 0, 0⟩, "Uống nước", "id2", ⟨2024, 1, 1, 8, 0, 0, 0⟩⟩],
      ValidDT r.due_time ∧ ValidDT r.created_at) ∧
    storeLoad (storeSave
      [⟨⟨2024, 1, 2, 1, 0, 0, 0⟩, "Đi ngủ", "id1", ⟨2024, 1, 1, 20, 0, 5, 123456⟩⟩,
       ⟨⟨2024, 1, 1, 13, 30, 0, 0⟩, "Uống nước", "id2", ⟨2024, 1, 1, 8, 0, 0, 0⟩⟩])
      = some
      [⟨⟨2024, 1, 2, 1, 0, 0, 0⟩, "Đi ngủ", "id1", ⟨2024, 1, 1, 20, 0, 5, 123456⟩⟩,
       ⟨⟨2024, 1, 1, 13, 30, 0, 0⟩, "Uống nước", "id2", ⟨2024, 1, 1, 8, 0, 0, 0⟩⟩] :=
  ⟨by decide, save_load_round_trip _ (by decide)⟩

/-- Witness for C2 (amended): a command with a bare hour and no message text
parses successfully (default message), and the in-range guarantee of the
amended theorem holds on its result. -/
theorem parse_error_conditions_witness :
    parseCore "nhắc nhở tôi lúc 7".data ⟨2024, 1, 1, 20, 0, 0, 0⟩
      = .ok (⟨2024, 1, 2, 7, 0, 0, 0⟩, "Nhắc nhở".data) ∧
    (⟨2024, 1, 2, 7, 0, 0, 0⟩ : DateTime).hour ≤ 23 ∧
    (⟨2024, 1, 2, 7, 0, 0, 0⟩ : DateTime).minute ≤ 59 :=
  ⟨by rfl,
    (parse_error_conditions "nhắc nhở tôi lúc 7".data ⟨2024, 1, 1, 20, 0, 0, 0⟩).2
      ⟨2024, 1, 2, 7, 0, 0, 0⟩ "Nhắc nhở".data (by rfl)⟩
